import Mathlib

/-!
# Verification of the auth-service token subsystem

Shallow embedding of the token lifecycle engine of `eupneart/auth-service`:
the JWT claim codec (modelled symbolically at the golang-jwt library
boundary), the token metadata store (`TokenRepo` over the `token_metadata`
table, modelled as a list of records), and the token service operations
(`GenerateTokens`, `ValidateToken`, `RefreshAccessToken`, `RevokeToken`,
`RevokeAllTokensForUser`, `CleanupExpiredTokens`).

Times and durations are unix seconds (`Nat`).  Nondeterministic inputs of
the Go code (freshly generated UUIDs, `time.Now()`, store faults) are
explicit parameters.
-/

namespace AuthService

/-- A user as the token service consumes it (`models.User` fields used by
`tokens_service.go`: `ID int64`, `Email`, `Role`). -/
structure User where
  id : Int
  email : String
  role : String
  deriving Repr, DecidableEq

/-- Configuration `TokenServiceConfig` from `tokens_service.go`. -/
structure TokenServiceConfig where
  jwtSecret : String
  accessTokenDuration : Nat
  refreshTokenDuration : Nat
  issuer : String
  deriving Repr, DecidableEq

/-- JWT claims: `models.Claims` (registered claims plus the user claims set
by `tokens_service.go`, and the optional device/client identifiers of
`models/tokens.go`; the Go zero value of a string field is `""`). -/
structure Claims where
  expiresAt : Nat
  issuedAt : Nat
  notBefore : Nat
  issuer : String
  subject : String
  jti : String
  userID : Int
  email : String
  role : String
  tokenType : String
  deviceID : String
  clientID : String
  deriving Repr, DecidableEq

/-- The algorithm named in a token header. The service signs with HS256 and
accepts only the HMAC family on validation. -/
inductive Alg
  | hs256
  | rs256
  | noneAlg
  deriving Repr, DecidableEq

/-- Whether the header algorithm is in the HMAC family
(`token.Method.(*jwt.SigningMethodHMAC)` type check in `ValidateToken`). -/
def Alg.isHMAC : Alg → Bool
  | .hs256 => true
  | _ => false

/-- A token string, symbolically: either the empty string (Go zero value,
structurally unparseable) or a signed structure carrying a header algorithm,
a claims payload, and a signature binding a secret to a claims payload. -/
inductive TokenStr
  | empty
  | signed (alg : Alg) (claims : Claims) (sigSecret : String) (sigClaims : Claims)
  deriving Repr, DecidableEq

/-- Signing, `jwt.NewWithClaims(jwt.SigningMethodHS256, claims).SignedString(secret)`:
an HS256 token whose signature binds the secret to exactly these claims. -/
def signToken (secret : String) (c : Claims) : TokenStr :=
  .signed .hs256 c secret c

/-- Failure modes of `jwt.ParseWithClaims`. -/
inductive ParseErr
  | malformed
  | badAlg
  | badSignature
  | expired
  | notYetValid
  deriving Repr, DecidableEq

/-- Parsing, `jwt.ParseWithClaims` with the service keyfunc of `ValidateToken`:
reject non-HMAC algorithm headers, verify the signature with the configured
secret, and apply the library claim validation (`exp`: fails when `now`
is after `expiresAt`; `nbf`: fails when `now` is before `notBefore`). -/
def parseWithClaims (secret : String) (now : Nat) : TokenStr → Except ParseErr Claims
  | .empty => .error .malformed
  | .signed alg c s c' =>
    if ¬ alg.isHMAC then .error .badAlg
    else if ¬ (s = secret ∧ c' = c) then .error .badSignature
    else if c.expiresAt < now then .error .expired
    else if now < c.notBefore then .error .notYetValid
    else .ok c

/-- Helper `parseTokenWithoutValidation`: the keyfunc never rejects an algorithm,
and the claims are extracted whenever the parse produced a non-nil token,
i.e. whenever the string is structurally a token — signature, expiry and
algorithm failures are ignored here. -/
def parseUnverified : TokenStr → Except ParseErr Claims
  | .empty => .error .malformed
  | .signed _ c _ _ => .ok c

/-- Record `models.TokenMetadata` — one row of the `token_metadata` table.
`lastUsedAt = 0` models the Go zero time / SQL NULL (never used). -/
structure TokenMetadata where
  id : String
  userID : Int
  tokenType : String
  deviceID : String
  clientID : String
  isRevoked : Bool
  createdAt : Nat
  expiresAt : Nat
  lastUsedAt : Nat
  deriving Repr, DecidableEq

/-- The metadata store: the rows of the `token_metadata` table. -/
abbrev Store := List TokenMetadata

/-- Store op `TokenRepo.SaveTokenMetadata`: `INSERT INTO token_metadata ...`.
`fault` models an external store failure; an insert whose id already exists
violates the primary key (spec section 3: identifier is the primary key)
and also fails. -/
def saveTokenMetadata (store : Store) (md : TokenMetadata) (fault : Bool) :
    Except Unit Store :=
  if fault ∨ store.any (fun m => m.id = md.id) then .error ()
  else .ok (store ++ [md])

/-- Store op `TokenRepo.IsTokenRevoked`: `SELECT is_revoked FROM token_metadata WHERE
id = $1`; on `sql.ErrNoRows` the repo returns `true` (a missing record is
considered revoked/invalid). -/
def isTokenRevoked (store : Store) (tokenID : String) : Bool :=
  match store.find? (fun m => m.id = tokenID) with
  | none => true
  | some m => m.isRevoked

/-- Store op `TokenRepo.UpdateLastUsed`: `UPDATE token_metadata SET last_used_at = $1
WHERE id = $2`; affecting zero rows is not an error. -/
def updateLastUsed (store : Store) (tokenID : String) (now : Nat) : Store :=
  store.map (fun m => if m.id = tokenID then { m with lastUsedAt := now } else m)

/-- Store op `TokenRepo.RevokeToken`: `UPDATE token_metadata SET is_revoked = true
WHERE id = $1`; zero rows affected is the error `token not found`. -/
def revokeTokenStore (store : Store) (tokenID : String) : Except Unit Store :=
  if store.any (fun m => m.id = tokenID) then
    .ok (store.map (fun m => if m.id = tokenID then { m with isRevoked := true } else m))
  else .error ()

/-- Store op `TokenRepo.RevokeAllTokensForUser`: `UPDATE token_metadata SET
is_revoked = true WHERE user_id = $1 AND is_revoked = false`. -/
def revokeAllTokensForUserStore (store : Store) (userID : Int) : Store :=
  store.map (fun m =>
    if m.userID = userID ∧ m.isRevoked = false then { m with isRevoked := true } else m)

/-- The `RowsAffected` count of the bulk revocation update: the number of
rows matching `user_id = $1 AND is_revoked = false`. The repo retrieves it
and logs it. -/
def revokeAllRowsAffected (store : Store) (userID : Int) : Nat :=
  (store.filter (fun m => m.userID = userID ∧ m.isRevoked = false)).length

/-- Store op `TokenRepo.CleanupExpiredTokens`: `DELETE FROM token_metadata WHERE
expires_at < $1` with `$1 = now`. -/
def cleanupExpiredTokens (store : Store) (now : Nat) : Store :=
  store.filter (fun m => ¬ m.expiresAt < now)

/-- The `RowsAffected` count of the cleanup delete (also what the SQL
function `cleanup_expired_tokens()` of migration 003 returns). -/
def cleanupDeletedCount (store : Store) (now : Nat) : Nat :=
  (store.filter (fun m => m.expiresAt < now)).length

/-- The service error taxonomy (`ErrInvalidToken`, `ErrTokenRevoked`,
`ErrInvalidTokenType`, `ErrInvalidClaims`, wrapped store and user errors). -/
inductive TokenError
  | parseFailed (e : ParseErr)
  | invalidToken
  | tokenRevoked
  | invalidTokenType
  | userNotFound
  | persistenceFailed
  | invalidClaims
  | tokenNotFound
  deriving Repr, DecidableEq

/-- The access-token claims built by `GenerateTokens` (and by
`RefreshAccessToken`): subject is the decimal rendering of the user id,
role is carried, kind is `access`. -/
def accessClaimsFor (cfg : TokenServiceConfig) (u : User) (tokenID : String)
    (now : Nat) : Claims :=
  { expiresAt := now + cfg.accessTokenDuration
    issuedAt := now
    notBefore := now
    issuer := cfg.issuer
    subject := toString u.id
    jti := tokenID
    userID := u.id
    email := u.email
    role := u.role
    tokenType := "access"
    deviceID := ""
    clientID := "" }

/-- The refresh-token claims built by `GenerateTokens`: no role is set
(Go zero value `""`), kind is `refresh`. -/
def refreshClaimsFor (cfg : TokenServiceConfig) (u : User) (tokenID : String)
    (now : Nat) : Claims :=
  { expiresAt := now + cfg.refreshTokenDuration
    issuedAt := now
    notBefore := now
    issuer := cfg.issuer
    subject := toString u.id
    jti := tokenID
    userID := u.id
    email := u.email
    role := ""
    tokenType := "refresh"
    deviceID := ""
    clientID := "" }

/-- The metadata record `GenerateTokens`/`RefreshAccessToken` stores for a
fresh access token (`IsRevoked: false`). -/
def accessMetadataFor (cfg : TokenServiceConfig) (u : User) (tokenID : String)
    (now : Nat) : TokenMetadata :=
  { id := tokenID
    userID := u.id
    tokenType := "access"
    deviceID := ""
    clientID := ""
    isRevoked := false
    createdAt := now
    expiresAt := now + cfg.accessTokenDuration
    lastUsedAt := 0 }

/-- The metadata record `GenerateTokens` stores for a fresh refresh token. -/
def refreshMetadataFor (cfg : TokenServiceConfig) (u : User) (tokenID : String)
    (now : Nat) : TokenMetadata :=
  { id := tokenID
    userID := u.id
    tokenType := "refresh"
    deviceID := ""
    clientID := ""
    isRevoked := false
    createdAt := now
    expiresAt := now + cfg.refreshTokenDuration
    lastUsedAt := 0 }

/-- Result of `GenerateTokens`: the Go signature
`(accessToken, refreshToken string, err error)` plus the store state. -/
structure GenTokensResult where
  accessToken : TokenStr
  refreshToken : TokenStr
  store : Store
  err : Option TokenError
  deriving Repr, DecidableEq

/-- Service op `tokenService.GenerateTokens`: build claims for both tokens, sign both,
then persist metadata for both; on either persistence failure return
`("", "", err)` with the store as mutated so far (no rollback). The fresh
UUIDs and `time.Now()` are the parameters `accessTokenID`, `refreshTokenID`
and `now`; `accessSaveFault`/`refreshSaveFault` model store failures. -/
def generateTokens (cfg : TokenServiceConfig) (u : User)
    (accessTokenID refreshTokenID : String) (now : Nat) (store : Store)
    (accessSaveFault refreshSaveFault : Bool) : GenTokensResult :=
  let accessToken := signToken cfg.jwtSecret (accessClaimsFor cfg u accessTokenID now)
  let refreshToken := signToken cfg.jwtSecret (refreshClaimsFor cfg u refreshTokenID now)
  match saveTokenMetadata store (accessMetadataFor cfg u accessTokenID now) accessSaveFault with
  | .error _ => ⟨.empty, .empty, store, some .persistenceFailed⟩
  | .ok store1 =>
    match saveTokenMetadata store1 (refreshMetadataFor cfg u refreshTokenID now) refreshSaveFault with
    | .error _ => ⟨.empty, .empty, store1, some .persistenceFailed⟩
    | .ok store2 => ⟨accessToken, refreshToken, store2, none⟩

/-- Service op `tokenService.ValidateToken`: parse and verify the token, check the
revocation flag by claim id, fail with `ErrTokenRevoked` if revoked, then
best-effort update the last-used timestamp and return the claims. -/
def validateToken (cfg : TokenServiceConfig) (now : Nat) (store : Store)
    (tokenStr : TokenStr) : Except TokenError (Claims × Store) :=
  match parseWithClaims cfg.jwtSecret now tokenStr with
  | .error e => .error (.parseFailed e)
  | .ok claims =>
    if isTokenRevoked store claims.jti then .error .tokenRevoked
    else .ok (claims, updateLastUsed store claims.jti now)

/-- Service op `tokenService.RefreshAccessToken`: validate the refresh token, reject
non-refresh kinds, re-fetch the user by id, mint and persist a new access
token only. Returns `("", err)` on failure; the store reflects mutations
already performed (the validate step updates last-used even when a later
step fails). -/
def refreshAccessToken (cfg : TokenServiceConfig) (now : Nat)
    (users : List User) (store : Store) (refreshToken : TokenStr)
    (newAccessTokenID : String) (saveFault : Bool) :
    TokenStr × Store × Option TokenError :=
  match validateToken cfg now store refreshToken with
  | .error e => (.empty, store, some e)
  | .ok (claims, store1) =>
    if claims.tokenType ≠ "refresh" then (.empty, store1, some .invalidTokenType)
    else
      match users.find? (fun u => u.id = claims.userID) with
      | none => (.empty, store1, some .userNotFound)
      | some user =>
        let tok := signToken cfg.jwtSecret (accessClaimsFor cfg user newAccessTokenID now)
        match saveTokenMetadata store1 (accessMetadataFor cfg user newAccessTokenID now) saveFault with
        | .error _ => (.empty, store1, some .persistenceFailed)
        | .ok store2 => (tok, store2, none)

/-- Service op `tokenService.RevokeToken`: parse without validation to extract the
claim id, then flip the revocation flag in the store; `token not found`
when no record matches. -/
def revokeTokenService (cfg : TokenServiceConfig) (store : Store)
    (tokenStr : TokenStr) : Except TokenError Store :=
  match parseUnverified tokenStr with
  | .error e => .error (.parseFailed e)
  | .ok claims =>
    match revokeTokenStore store claims.jti with
    | .error _ => .error .tokenNotFound
    | .ok store' => .ok store'

/-- Service op `tokenService.RevokeAllTokensForUser`: delegate to the store; the Go
method returns only `error` to its caller (`nil` on success) — the rows
affected count is logged by the repo, not returned. -/
def revokeAllTokensForUserService (store : Store) (userID : Int) :
    Store × Option TokenError :=
  (revokeAllTokensForUserStore store userID, none)

/-- One invocation of a token-service operation, with all of its
nondeterministic inputs (this is the alphabet of the service's state
machine over the metadata store). -/
inductive TokenOp
  | generate (cfg : TokenServiceConfig) (u : User)
      (accessTokenID refreshTokenID : String) (now : Nat) (f1 f2 : Bool)
  | validate (cfg : TokenServiceConfig) (now : Nat) (t : TokenStr)
  | refresh (cfg : TokenServiceConfig) (now : Nat) (users : List User)
      (t : TokenStr) (newAccessTokenID : String) (f : Bool)
  | revokeOne (cfg : TokenServiceConfig) (t : TokenStr)
  | revokeAllForUser (userID : Int)
  | cleanup (now : Nat)
  deriving Repr

/-- Effect on the metadata store of one service operation. -/
def applyOp (store : Store) : TokenOp → Store
  | .generate cfg u aID rID now f1 f2 => (generateTokens cfg u aID rID now store f1 f2).store
  | .validate cfg now t =>
    match validateToken cfg now store t with
    | .ok (_, s) => s
    | .error _ => store
  | .refresh cfg now users t newID f => (refreshAccessToken cfg now users store t newID f).2.1
  | .revokeOne cfg t =>
    match revokeTokenService cfg store t with
    | .ok s => s
    | .error _ => store
  | .revokeAllForUser uid => revokeAllTokensForUserStore store uid
  | .cleanup now => cleanupExpiredTokens store now

/-- The two explicit revocation operations. -/
def TokenOp.isRevocation : TokenOp → Bool
  | .revokeOne _ _ => true
  | .revokeAllForUser _ => true
  | _ => false

/-- The cleanup sweep. -/
def TokenOp.isCleanup : TokenOp → Bool
  | .cleanup _ => true
  | _ => false

/-- The operations that create metadata records. -/
def TokenOp.isIssuance : TokenOp → Bool
  | .generate _ _ _ _ _ _ _ => true
  | .refresh _ _ _ _ _ _ => true
  | _ => false

/-- The operations that run token validation (and hence may touch the
last-used timestamp): `validate` itself and `refresh`, whose first step is
`validate`. -/
def TokenOp.isValidation : TokenOp → Bool
  | .validate _ _ _ => true
  | .refresh _ _ _ _ _ _ => true
  | _ => false

/-- How a surviving record after an operation relates to the record it came
from: identity and immutable fields are preserved; the revocation flag is
monotone, changes only from false to true, and only under a revocation
operation; the last-used timestamp changes only under a validation step. -/
def derivedFrom (op : TokenOp) (m m' : TokenMetadata) : Prop :=
  m'.id = m.id ∧ m'.userID = m.userID ∧ m'.tokenType = m.tokenType ∧
  m'.deviceID = m.deviceID ∧ m'.clientID = m.clientID ∧
  m'.createdAt = m.createdAt ∧ m'.expiresAt = m.expiresAt ∧
  (m.isRevoked = true → m'.isRevoked = true) ∧
  (m'.isRevoked ≠ m.isRevoked →
    op.isRevocation = true ∧ m.isRevoked = false ∧ m'.isRevoked = true) ∧
  (m'.lastUsedAt ≠ m.lastUsedAt → op.isValidation = true)

/-- Sample configuration for concrete evaluations. -/
def sampleConfig : TokenServiceConfig :=
  { jwtSecret := "topsecret"
    accessTokenDuration := 900
    refreshTokenDuration := 604800
    issuer := "auth-service" }

/-- Sample claims for concrete evaluations: optional device and client
identifiers empty, as the service always issues them. -/
def sampleClaims : Claims :=
  { expiresAt := 900
    issuedAt := 0
    notBefore := 0
    issuer := "auth-service"
    subject := "42"
    jti := "tok-1"
    userID := 42
    email := "a@b.com"
    role := "user"
    tokenType := "access"
    deviceID := ""
    clientID := "" }

/-- Sample metadata record matching `sampleClaims`. -/
def sampleMetadata : TokenMetadata :=
  { id := "tok-1"
    userID := 42
    tokenType := "access"
    deviceID := ""
    clientID := ""
    isRevoked := false
    createdAt := 0
    expiresAt := 900
    lastUsedAt := 0 }

/-- Sample refresh-token claims for concrete evaluations. -/
def refreshSampleClaims : Claims :=
  { expiresAt := 604800
    issuedAt := 0
    notBefore := 0
    issuer := "auth-service"
    subject := "42"
    jti := "tok-2"
    userID := 42
    email := "a@b.com"
    role := ""
    tokenType := "refresh"
    deviceID := ""
    clientID := "" }

/-- Sample metadata record matching `refreshSampleClaims`. -/
def refreshSampleMetadata : TokenMetadata :=
  { id := "tok-2"
    userID := 42
    tokenType := "refresh"
    deviceID := ""
    clientID := ""
    isRevoked := false
    createdAt := 0
    expiresAt := 604800
    lastUsedAt := 0 }

/-- Sample user for concrete evaluations. -/
def sampleUser : User :=
  { id := 42, email := "a@b.com", role := "user" }

/-! ## Helper lemmas -/

/-- Per-record updates that preserve the id commute with lookup by id. -/
theorem find?_map_of_id (f : TokenMetadata → TokenMetadata)
    (hf : ∀ m, (f m).id = m.id) (store : Store) (tid : String) :
    (store.map f).find? (fun m => m.id = tid) =
      (store.find? (fun m => m.id = tid)).map f := by
  induction store with
  | nil => rfl
  | cons a l ih =>
    by_cases h : a.id = tid
    · rw [List.map_cons, List.find?_cons_of_pos _ (by simp [hf, h]),
        List.find?_cons_of_pos _ (by simp [h])]
      rfl
    · rw [List.map_cons, List.find?_cons_of_neg _ (by simp [hf, h]),
        List.find?_cons_of_neg _ (by simp [h]), ih]

/-- Per-record updates that preserve the id do not change id existence. -/
theorem any_map_of_id (f : TokenMetadata → TokenMetadata)
    (hf : ∀ m, (f m).id = m.id) (store : Store) (tid : String) :
    (store.map f).any (fun m => m.id = tid) = store.any (fun m => m.id = tid) := by
  induction store with
  | nil => rfl
  | cons a l ih => simp [hf, ih]

/-- Successful verified parses happen exactly on well-signed HMAC tokens
inside their validity window. -/
theorem parseWithClaims_ok_shape {secret : String} {now : Nat} {t : TokenStr}
    {c : Claims} (h : parseWithClaims secret now t = .ok c) :
    (∃ alg, t = .signed alg c secret c ∧ alg.isHMAC = true) ∧
      c.notBefore ≤ now ∧ now ≤ c.expiresAt := by
  cases t with
  | empty => simp [parseWithClaims] at h
  | signed alg c0 s c1 =>
    simp only [parseWithClaims] at h
    by_cases h1 : alg.isHMAC = true
    · rw [if_neg (by simp [h1])] at h
      by_cases h2 : s = secret ∧ c1 = c0
      · rw [if_neg (not_not.mpr h2)] at h
        by_cases h3 : c0.expiresAt < now
        · rw [if_pos h3] at h
          exact Except.noConfusion h
        · rw [if_neg h3] at h
          by_cases h4 : now < c0.notBefore
          · rw [if_pos h4] at h
            exact Except.noConfusion h
          · rw [if_neg h4] at h
            obtain ⟨rfl, rfl⟩ := h2
            cases h
            exact ⟨⟨alg, rfl, h1⟩, Nat.not_lt.mp h4, Nat.not_lt.mp h3⟩
      · rw [if_pos h2] at h
        exact Except.noConfusion h
    · rw [if_pos h1] at h
      exact Except.noConfusion h

/-- Decoding a token signed with the same secret succeeds inside the
validity window. -/
theorem parse_signToken (secret : String) (now : Nat) (c : Claims)
    (h1 : c.notBefore ≤ now) (h2 : now ≤ c.expiresAt) :
    parseWithClaims secret now (signToken secret c) = .ok c := by
  simp [parseWithClaims, signToken, Alg.isHMAC,
    Nat.not_lt.mpr h1, Nat.not_lt.mpr h2]

/-- A present, unrevoked record makes the revocation check pass. -/
theorem isTokenRevoked_eq_false_of_find? {store : Store} {tid : String}
    {m : TokenMetadata} (hfind : store.find? (fun x => x.id = tid) = some m)
    (hrev : m.isRevoked = false) : isTokenRevoked store tid = false := by
  simp [isTokenRevoked, hfind, hrev]

/-- After the single-token revocation update, the revocation check reports
the token revoked (provided its record exists). -/
theorem isTokenRevoked_after_revoke {store : Store} {tid : String}
    (h : store.any (fun m => m.id = tid) = true) :
    isTokenRevoked
      (store.map (fun m => if m.id = tid then { m with isRevoked := true } else m))
      tid = true := by
  have hf : ∀ m : TokenMetadata,
      ((if m.id = tid then { m with isRevoked := true } else m) : TokenMetadata).id
        = m.id := by
    intro m
    by_cases hm : m.id = tid <;> simp [hm]
  simp only [isTokenRevoked, find?_map_of_id _ hf]
  obtain ⟨m, hm⟩ : ∃ m, store.find? (fun x => x.id = tid) = some m := by
    have h2 : (store.find? (fun x => x.id = tid)).isSome := by
      rw [List.find?_isSome]
      simpa [List.any_eq_true] using h
    exact Option.isSome_iff_exists.mp h2
  have hid : m.id = tid := by simpa using List.find?_some hm
  rw [hm]
  simp [hid]

/-! ## Claims -/

/-- C7: cleanup deletes exactly the metadata records whose expiry is
strictly before the sweep time, regardless of the revocation flag, leaves
all other records unchanged (the survivors are a sublist of the old store,
and the counts add up), and an immediate second invocation deletes zero
records. -/
theorem C7_cleanup_exact (store : Store) (now : Nat) :
    (cleanupExpiredTokens store now).Sublist store ∧
    (∀ m ∈ store, m ∈ cleanupExpiredTokens store now ↔ ¬ m.expiresAt < now) ∧
    store.length = (cleanupExpiredTokens store now).length + cleanupDeletedCount store now ∧
    cleanupExpiredTokens (cleanupExpiredTokens store now) now = cleanupExpiredTokens store now ∧
    cleanupDeletedCount (cleanupExpiredTokens store now) now = 0 := by
  refine ⟨List.filter_sublist _, ?_, ?_, ?_, ?_⟩
  · intro m hm
    simp [cleanupExpiredTokens, List.mem_filter, hm]
  · simp only [cleanupExpiredTokens, cleanupDeletedCount]
    have h := List.length_eq_length_filter_add
      (l := store) (f := fun m => decide (m.expiresAt < now))
    simp only [decide_not] at h ⊢
    omega
  · apply List.filter_eq_self.mpr
    intro a ha
    exact (List.mem_filter.mp ha).2
  · simp only [cleanupDeletedCount, cleanupExpiredTokens]
    rw [List.length_eq_zero, List.filter_eq_nil_iff]
    intro a ha
    have h2 := (List.mem_filter.mp ha).2
    simp only [decide_eq_true_eq, decide_not, Bool.not_eq_true'] at h2 ⊢
    simpa using h2

/-- Concrete instance of C7 at a one-record store. -/
theorem C7_cleanup_exact_witness :
    sampleMetadata ∈ cleanupExpiredTokens [sampleMetadata] 2000 ↔
      ¬ sampleMetadata.expiresAt < 2000 :=
  (C7_cleanup_exact [sampleMetadata] 2000).2.1 sampleMetadata (by simp)

/-- C8: decoding the token string produced by encoding a claims value
yields the original claims, for every claims value (the optional device
and client identifiers included) decoded inside its validity window. -/
theorem C8_decode_encode_roundtrip (secret : String) (now : Nat) (c : Claims)
    (h1 : c.notBefore ≤ now) (h2 : now ≤ c.expiresAt) :
    parseWithClaims secret now (signToken secret c) = .ok c := by
  simp [parseWithClaims, signToken, Alg.isHMAC,
    Nat.not_lt.mpr h1, Nat.not_lt.mpr h2]

/-- Concrete instance of C8: claims with empty device and client
identifiers round-trip. -/
theorem C8_decode_encode_roundtrip_witness :
    sampleClaims.deviceID = "" ∧ sampleClaims.clientID = "" ∧
    parseWithClaims "k" 0 (signToken "k" sampleClaims) = .ok sampleClaims :=
  ⟨rfl, rfl, C8_decode_encode_roundtrip "k" 0 sampleClaims (by decide) (by decide)⟩

/-- C3: if either of the two metadata persistence calls inside token
issuance fails, issuance fails with the persistence error and both
returned token strings are empty, even though the tokens were signed. -/
theorem C3_persistence_failure_no_tokens (cfg : TokenServiceConfig) (u : User)
    (aID rID : String) (now : Nat) (store : Store) (f1 f2 : Bool)
    (h : saveTokenMetadata store (accessMetadataFor cfg u aID now) f1 = .error () ∨
      ∃ store1, saveTokenMetadata store (accessMetadataFor cfg u aID now) f1 = .ok store1 ∧
        saveTokenMetadata store1 (refreshMetadataFor cfg u rID now) f2 = .error ()) :
    (generateTokens cfg u aID rID now store f1 f2).accessToken = .empty ∧
    (generateTokens cfg u aID rID now store f1 f2).refreshToken = .empty ∧
    (generateTokens cfg u aID rID now store f1 f2).err = some .persistenceFailed := by
  rcases h with h | ⟨store1, hok, herr⟩
  · simp [generateTokens, h]
  · simp [generateTokens, hok, herr]

/-- Concrete instance of C3: the first persistence call faults. -/
theorem C3_persistence_failure_no_tokens_witness :
    (generateTokens sampleConfig sampleUser "a1" "r1" 0 [] true false).accessToken = .empty ∧
    (generateTokens sampleConfig sampleUser "a1" "r1" 0 [] true false).refreshToken = .empty ∧
    (generateTokens sampleConfig sampleUser "a1" "r1" 0 [] true false).err =
      some .persistenceFailed :=
  C3_persistence_failure_no_tokens sampleConfig sampleUser "a1" "r1" 0 [] true false
    (Or.inl rfl)

/-- C10: token validation performs no token-kind check — a validly-signed
refresh token inside its validity window whose metadata record is present
and not revoked validates successfully and returns its claims, exactly as
an access token would. -/
theorem C10_validate_ignores_kind (cfg : TokenServiceConfig) (now : Nat)
    (store : Store) (t : TokenStr) (c : Claims) (m : TokenMetadata)
    (hparse : parseWithClaims cfg.jwtSecret now t = .ok c)
    (hkind : c.tokenType = "refresh")
    (hfind : store.find? (fun x => x.id = c.jti) = some m)
    (hrev : m.isRevoked = false) :
    validateToken cfg now store t = .ok (c, updateLastUsed store c.jti now) ∧
    c.tokenType = "refresh" := by
  refine ⟨?_, hkind⟩
  simp only [validateToken, hparse]
  rw [if_neg (by simp [isTokenRevoked, hfind, hrev])]

/-- Concrete instance of C10 on a refresh token. -/
theorem C10_validate_ignores_kind_witness :
    validateToken sampleConfig 5 [refreshSampleMetadata]
        (signToken sampleConfig.jwtSecret refreshSampleClaims) =
      .ok (refreshSampleClaims,
        updateLastUsed [refreshSampleMetadata] refreshSampleClaims.jti 5) ∧
    refreshSampleClaims.tokenType = "refresh" :=
  C10_validate_ignores_kind sampleConfig 5 [refreshSampleMetadata]
    (signToken sampleConfig.jwtSecret refreshSampleClaims)
    refreshSampleClaims refreshSampleMetadata rfl rfl rfl rfl

/-- C1 as stated fails on the code: here is a token that decodes
successfully at time 5 while the store holds no metadata record for it,
and validation does not succeed — `TokenRepo.IsTokenRevoked` answers
`true` for a missing record, so validation fails with `ErrTokenRevoked`. -/
theorem C1_counterexample :
    parseWithClaims sampleConfig.jwtSecret 5
        (signToken sampleConfig.jwtSecret sampleClaims) = .ok sampleClaims ∧
    ([] : Store).find? (fun m => m.id = sampleClaims.jti) = none ∧
    validateToken sampleConfig 5 []
        (signToken sampleConfig.jwtSecret sampleClaims) = .error .tokenRevoked := by
  exact ⟨rfl, rfl, rfl⟩

/-- C1 amended: for every token that decodes successfully but whose
metadata record is absent from the store, the revocation check treats the
token as revoked and validation fails with `ErrTokenRevoked` (fail
closed), rather than succeeding. -/
theorem C1_missing_metadata_fails_closed (cfg : TokenServiceConfig) (now : Nat)
    (store : Store) (t : TokenStr) (c : Claims)
    (hparse : parseWithClaims cfg.jwtSecret now t = .ok c)
    (habsent : store.find? (fun m => m.id = c.jti) = none) :
    validateToken cfg now store t = .error .tokenRevoked := by
  simp only [validateToken, hparse]
  rw [if_pos (by simp [isTokenRevoked, habsent])]

/-- Concrete instance of the amended C1. -/
theorem C1_missing_metadata_fails_closed_witness :
    validateToken sampleConfig 5 []
        (signToken sampleConfig.jwtSecret sampleClaims) = .error .tokenRevoked :=
  C1_missing_metadata_fails_closed sampleConfig 5 []
    (signToken sampleConfig.jwtSecret sampleClaims) sampleClaims rfl rfl

/-- Decoding a well-signed HMAC-family token succeeds inside its validity
window. -/
theorem parse_signed_ok (secret : String) (now : Nat) (alg : Alg) (c : Claims)
    (halg : alg.isHMAC = true) (h1 : c.notBefore ≤ now) (h2 : now ≤ c.expiresAt) :
    parseWithClaims secret now (.signed alg c secret c) = .ok c := by
  simp [parseWithClaims, halg, Nat.not_lt.mpr h1, Nat.not_lt.mpr h2]

/-- C2 as stated fails on the code: the caller of the bulk revocation
receives only a success/failure value, never the affected-row count — two
stores on which the operation affects different numbers of records produce
the identical caller-visible result. The count is computed by the repo
(`RowsAffected`) and logged, and only the SQL maintenance function
`revoke_all_user_tokens` of migration 003 returns it. -/
theorem C2_counterexample :
    revokeAllRowsAffected [sampleMetadata] 42 = 1 ∧
    revokeAllRowsAffected [] 42 = 0 ∧
    (revokeAllTokensForUserService [sampleMetadata] 42).2 =
      (revokeAllTokensForUserService [] 42).2 :=
  ⟨rfl, rfl, rfl⟩

/-- C2 amended: bulk revocation flips the revocation flag to true on every
non-revoked metadata record owned by the user, leaves every other record
(other users' records and already-revoked ones) unchanged, and reports
success; the count of records affected is computed and logged but is not
returned to the caller. -/
theorem C2_revoke_all_for_user (store : Store) (uid : Int) :
    (∀ m ∈ store, m.userID = uid → m.isRevoked = false →
      { m with isRevoked := true } ∈ (revokeAllTokensForUserService store uid).1) ∧
    (∀ m ∈ store, (m.userID ≠ uid ∨ m.isRevoked = true) →
      m ∈ (revokeAllTokensForUserService store uid).1) ∧
    (∀ m' ∈ (revokeAllTokensForUserService store uid).1,
      m' ∈ store ∨ ∃ m ∈ store, m.userID = uid ∧ m.isRevoked = false ∧
        m' = { m with isRevoked := true }) ∧
    ((revokeAllTokensForUserService store uid).1).length = store.length ∧
    (revokeAllTokensForUserService store uid).2 = none := by
  refine ⟨?_, ?_, ?_, ?_, rfl⟩
  · intro m hm h1 h2
    simp only [revokeAllTokensForUserService, revokeAllTokensForUserStore]
    exact List.mem_map.mpr ⟨m, hm, by simp [h1, h2]⟩
  · intro m hm h
    simp only [revokeAllTokensForUserService, revokeAllTokensForUserStore]
    refine List.mem_map.mpr ⟨m, hm, ?_⟩
    rcases h with h | h <;> simp [h]
  · intro m' hm'
    simp only [revokeAllTokensForUserService, revokeAllTokensForUserStore] at hm'
    obtain ⟨m, hm, heq⟩ := List.mem_map.mp hm'
    by_cases hc : m.userID = uid ∧ m.isRevoked = false
    · right
      exact ⟨m, hm, hc.1, hc.2, by rw [← heq, if_pos hc]⟩
    · left
      rw [← heq, if_neg hc]
      exact hm
  · simp [revokeAllTokensForUserService, revokeAllTokensForUserStore]

/-- Concrete instance of the amended C2. -/
theorem C2_revoke_all_for_user_witness :
    { sampleMetadata with isRevoked := true } ∈
      (revokeAllTokensForUserService [sampleMetadata] 42).1 :=
  (C2_revoke_all_for_user [sampleMetadata] 42).1 sampleMetadata (by simp) rfl rfl

/-- C4: on the success path, issuance returns an access token and a
refresh token that decode to claims with subject equal to the decimal
user id, kinds access and refresh, distinct identifiers, expiries equal
to issuance time plus the configured access and refresh lifetimes, and
the role claim present only on the access token (the refresh claims carry
the empty role). -/
theorem C4_issue_token_claims (cfg : TokenServiceConfig) (u : User)
    (aID rID : String) (now : Nat) (store : Store)
    (hids : aID ≠ rID)
    (haFresh : store.any (fun m => m.id = aID) = false)
    (hrFresh : store.any (fun m => m.id = rID) = false) :
    (generateTokens cfg u aID rID now store false false).err = none ∧
    parseWithClaims cfg.jwtSecret now
        (generateTokens cfg u aID rID now store false false).accessToken =
      .ok (accessClaimsFor cfg u aID now) ∧
    parseWithClaims cfg.jwtSecret now
        (generateTokens cfg u aID rID now store false false).refreshToken =
      .ok (refreshClaimsFor cfg u rID now) ∧
    (accessClaimsFor cfg u aID now).subject = toString u.id ∧
    (refreshClaimsFor cfg u rID now).subject = toString u.id ∧
    (accessClaimsFor cfg u aID now).tokenType = "access" ∧
    (refreshClaimsFor cfg u rID now).tokenType = "refresh" ∧
    (accessClaimsFor cfg u aID now).jti ≠ (refreshClaimsFor cfg u rID now).jti ∧
    (accessClaimsFor cfg u aID now).expiresAt = now + cfg.accessTokenDuration ∧
    (refreshClaimsFor cfg u rID now).expiresAt = now + cfg.refreshTokenDuration ∧
    ((accessClaimsFor cfg u aID now).role = u.role ∧
      (refreshClaimsFor cfg u rID now).role = "") := by
  have hsave1 : saveTokenMetadata store (accessMetadataFor cfg u aID now) false =
      .ok (store ++ [accessMetadataFor cfg u aID now]) := by
    simp [saveTokenMetadata, accessMetadataFor, haFresh]
  have hsave2 : saveTokenMetadata (store ++ [accessMetadataFor cfg u aID now])
      (refreshMetadataFor cfg u rID now) false =
      .ok (store ++ [accessMetadataFor cfg u aID now] ++
        [refreshMetadataFor cfg u rID now]) := by
    simp [saveTokenMetadata, accessMetadataFor, refreshMetadataFor, hrFresh, hids]
  refine ⟨?_, ?_, ?_, rfl, rfl, rfl, rfl, hids, rfl, rfl, rfl, rfl⟩
  · simp [generateTokens, hsave1, hsave2]
  · simp only [generateTokens, hsave1, hsave2]
    exact parse_signToken _ _ _ (Nat.le_refl now) (Nat.le_add_right now _)
  · simp only [generateTokens, hsave1, hsave2]
    exact parse_signToken _ _ _ (Nat.le_refl now) (Nat.le_add_right now _)

/-- Concrete instance of C4: issuance on an empty store succeeds. -/
theorem C4_issue_token_claims_witness :
    (generateTokens sampleConfig sampleUser "a1" "r1" 0 [] false false).err = none :=
  (C4_issue_token_claims sampleConfig sampleUser "a1" "r1" 0 []
    (by decide) rfl rfl).1

/-- C5 as stated fails on the code: a previously-valid token is revoked,
and a later validation — after the token's signed expiry — fails with the
expiry parse error produced before the revocation check is ever reached,
not with `ErrTokenRevoked`. -/
theorem C5_counterexample :
    validateToken sampleConfig 5 [sampleMetadata]
        (signToken sampleConfig.jwtSecret sampleClaims) =
      .ok (sampleClaims, [{ sampleMetadata with lastUsedAt := 5 }]) ∧
    revokeTokenService sampleConfig [{ sampleMetadata with lastUsedAt := 5 }]
        (signToken sampleConfig.jwtSecret sampleClaims) =
      .ok [{ sampleMetadata with lastUsedAt := 5, isRevoked := true }] ∧
    validateToken sampleConfig 1000
        [{ sampleMetadata with lastUsedAt := 5, isRevoked := true }]
        (signToken sampleConfig.jwtSecret sampleClaims) =
      .error (.parseFailed .expired) ∧
    (Except.error (TokenError.parseFailed .expired) :
      Except TokenError (Claims × Store)) ≠ .error .tokenRevoked := by
  refine ⟨rfl, rfl, rfl, by simp⟩

/-- C5 amended: after a previously-valid token is revoked, every
subsequent validation inside the token's signed validity window fails
with `ErrTokenRevoked` (past the expiry a validation fails too, but with
the expiry parse error instead). -/
theorem C5_revoke_then_validate_revoked (cfg : TokenServiceConfig)
    (store s1 s2 : Store) (t : TokenStr) (c : Claims) (now0 now1 : Nat)
    (hval : validateToken cfg now0 store t = .ok (c, s1))
    (hrev : revokeTokenService cfg s1 t = .ok s2)
    (h1 : c.notBefore ≤ now1) (h2 : now1 ≤ c.expiresAt) :
    validateToken cfg now1 s2 t = .error .tokenRevoked := by
  have hp : parseWithClaims cfg.jwtSecret now0 t = .ok c := by
    simp only [validateToken] at hval
    cases hq : parseWithClaims cfg.jwtSecret now0 t with
    | error e =>
      rw [hq] at hval
      exact Except.noConfusion hval
    | ok c0 =>
      simp only [hq] at hval
      by_cases hr : isTokenRevoked store c0.jti
      · rw [if_pos hr] at hval
        exact Except.noConfusion hval
      · rw [if_neg hr] at hval
        injection hval with hval'
        rw [Prod.mk.injEq] at hval'
        rw [hval'.1]
  obtain ⟨⟨alg, rfl, halg⟩, -, -⟩ := parseWithClaims_ok_shape hp
  have hany : s1.any (fun m => m.id = c.jti) = true := by
    by_cases h : s1.any (fun m => m.id = c.jti)
    · exact h
    · exfalso
      simp only [revokeTokenService, parseUnverified, revokeTokenStore] at hrev
      rw [if_neg h] at hrev
      exact Except.noConfusion hrev
  have hstore : revokeTokenStore s1 c.jti =
      .ok (s1.map (fun m => if m.id = c.jti then { m with isRevoked := true } else m)) := by
    simp only [revokeTokenStore]
    rw [if_pos hany]
  have hserv : revokeTokenService cfg s1 (.signed alg c cfg.jwtSecret c) =
      .ok (s1.map (fun m => if m.id = c.jti then { m with isRevoked := true } else m)) := by
    simp only [revokeTokenService, parseUnverified, hstore]
  rw [hserv] at hrev
  have hs2 := (Except.ok.inj hrev).symm
  simp only [validateToken, parse_signed_ok cfg.jwtSecret now1 alg c halg h1 h2]
  rw [if_pos (by rw [hs2]; exact isTokenRevoked_after_revoke hany)]

/-- Concrete instance of the amended C5, validating at time 100 (inside
the window) after revocation. -/
theorem C5_revoke_then_validate_revoked_witness :
    validateToken sampleConfig 100
        [{ sampleMetadata with lastUsedAt := 5, isRevoked := true }]
        (signToken sampleConfig.jwtSecret sampleClaims) = .error .tokenRevoked :=
  C5_revoke_then_validate_revoked sampleConfig [sampleMetadata]
    [{ sampleMetadata with lastUsedAt := 5 }]
    [{ sampleMetadata with lastUsedAt := 5, isRevoked := true }]
    (signToken sampleConfig.jwtSecret sampleClaims) sampleClaims 5 100
    rfl rfl (by decide) (by decide)

/-- C6: refreshing with a valid refresh token mints a new access token
under a fresh identifier and appends exactly one new metadata record (an
access record); the refresh token's own record is modified only in its
last-used timestamp, no refresh token is rotated or reissued, and the
original refresh token still validates successfully afterward at any time
up to its own expiry. -/
theorem C6_refresh_no_rotation (cfg : TokenServiceConfig) (users : List User)
    (store : Store) (t : TokenStr) (c : Claims) (m : TokenMetadata) (u : User)
    (now : Nat) (newID : String)
    (hparse : parseWithClaims cfg.jwtSecret now t = .ok c)
    (hkind : c.tokenType = "refresh")
    (hfind : store.find? (fun x => x.id = c.jti) = some m)
    (hrev : m.isRevoked = false)
    (huser : users.find? (fun x => x.id = c.userID) = some u)
    (hfresh : store.any (fun x => x.id = newID) = false) :
    refreshAccessToken cfg now users store t newID false =
      (signToken cfg.jwtSecret (accessClaimsFor cfg u newID now),
        updateLastUsed store c.jti now ++ [accessMetadataFor cfg u newID now],
        none) ∧
    (accessClaimsFor cfg u newID now).tokenType = "access" ∧
    (accessClaimsFor cfg u newID now).jti = newID ∧
    (∀ now2, c.notBefore ≤ now2 → now2 ≤ c.expiresAt →
      validateToken cfg now2
          (updateLastUsed store c.jti now ++ [accessMetadataFor cfg u newID now]) t =
        .ok (c, updateLastUsed
          (updateLastUsed store c.jti now ++ [accessMetadataFor cfg u newID now])
          c.jti now2)) := by
  have hf : ∀ x : TokenMetadata,
      ((if x.id = c.jti then { x with lastUsedAt := now } else x) : TokenMetadata).id
        = x.id := by
    intro x
    by_cases hx : x.id = c.jti <;> simp [hx]
  have hid : m.id = c.jti := by simpa using List.find?_some hfind
  have hfind1 : (updateLastUsed store c.jti now).find? (fun x => x.id = c.jti) =
      some { m with lastUsedAt := now } := by
    rw [updateLastUsed, find?_map_of_id _ hf, hfind]
    simp [hid]
  have hfind2 : ((updateLastUsed store c.jti now) ++
      [accessMetadataFor cfg u newID now]).find? (fun x => x.id = c.jti) =
      some { m with lastUsedAt := now } := by
    rw [List.find?_append, hfind1]
    rfl
  have hval : validateToken cfg now store t =
      .ok (c, updateLastUsed store c.jti now) := by
    simp only [validateToken, hparse]
    rw [if_neg (by simp [isTokenRevoked, hfind, hrev])]
  have hany1 : (updateLastUsed store c.jti now).any (fun x => x.id = newID) = false := by
    rw [updateLastUsed, any_map_of_id _ hf]
    exact hfresh
  have hsave : saveTokenMetadata (updateLastUsed store c.jti now)
      (accessMetadataFor cfg u newID now) false =
      .ok (updateLastUsed store c.jti now ++ [accessMetadataFor cfg u newID now]) := by
    simp [saveTokenMetadata, accessMetadataFor, hany1]
  obtain ⟨⟨alg, rfl, halg⟩, -, -⟩ := parseWithClaims_ok_shape hparse
  refine ⟨?_, rfl, rfl, ?_⟩
  · simp only [refreshAccessToken, hval]
    rw [if_neg (not_not.mpr hkind)]
    simp only [huser, hsave]
  · intro now2 hn1 hn2
    simp only [validateToken, parse_signed_ok cfg.jwtSecret now2 alg c halg hn1 hn2]
    rw [if_neg (by simp [isTokenRevoked, hfind2, hrev])]

/-- Concrete instance of C6. -/
theorem C6_refresh_no_rotation_witness :
    refreshAccessToken sampleConfig 5 [sampleUser] [refreshSampleMetadata]
        (signToken sampleConfig.jwtSecret refreshSampleClaims) "a2" false =
      (signToken sampleConfig.jwtSecret (accessClaimsFor sampleConfig sampleUser "a2" 5),
        updateLastUsed [refreshSampleMetadata] refreshSampleClaims.jti 5 ++
          [accessMetadataFor sampleConfig sampleUser "a2" 5],
        none) :=
  (C6_refresh_no_rotation sampleConfig [sampleUser] [refreshSampleMetadata]
    (signToken sampleConfig.jwtSecret refreshSampleClaims)
    refreshSampleClaims refreshSampleMetadata sampleUser 5 "a2"
    rfl rfl rfl rfl rfl rfl).1

/-! ## Lifecycle invariant (C9) -/

/-- Inversion for a successful metadata insert: the record was appended and
its id was fresh. -/
theorem saveTokenMetadata_ok {store store' : Store} {md : TokenMetadata}
    {fault : Bool} (h : saveTokenMetadata store md fault = .ok store') :
    store' = store ++ [md] ∧ store.any (fun m => m.id = md.id) = false := by
  by_cases hc : (fault = true ∨ store.any (fun m => m.id = md.id) = true)
  · exfalso
    simp only [saveTokenMetadata] at h
    rw [if_pos hc] at h
    exact Except.noConfusion h
  · simp only [saveTokenMetadata] at h
    rw [if_neg hc] at h
    refine ⟨(Except.ok.inj h).symm, ?_⟩
    rcases Bool.eq_false_or_eq_true (store.any (fun m => m.id = md.id)) with hb | hb
    · exact absurd (Or.inr hb) hc
    · exact hb

/-- Records of a store whose id-existence check is negative all have a
different id. -/
theorem not_mem_id_of_any_false {store : Store} {tid : String}
    (h : store.any (fun m => m.id = tid) = false) :
    ∀ m ∈ store, m.id ≠ tid := by
  intro m hm
  simpa using List.any_eq_false.mp h m hm

/-- Inversion for a successful validation: the resulting store is the old
one with the last-used timestamp of the claim id updated. -/
theorem validateToken_ok_store {cfg : TokenServiceConfig} {now : Nat}
    {store s : Store} {t : TokenStr} {c : Claims}
    (h : validateToken cfg now store t = .ok (c, s)) :
    s = updateLastUsed store c.jti now := by
  simp only [validateToken] at h
  cases hq : parseWithClaims cfg.jwtSecret now t with
  | error e =>
    rw [hq] at h
    exact Except.noConfusion h
  | ok c0 =>
    simp only [hq] at h
    by_cases hr : isTokenRevoked store c0.jti
    · rw [if_pos hr] at h
      exact Except.noConfusion h
    · rw [if_neg hr] at h
      injection h with h'
      rw [Prod.mk.injEq] at h'
      rw [← h'.2, h'.1]

/-- Inversion for a successful single-token revocation: the resulting
store is the old one with the revocation flag set on the extracted id. -/
theorem revokeTokenService_ok {cfg : TokenServiceConfig} {store s' : Store}
    {t : TokenStr} (h : revokeTokenService cfg store t = .ok s') :
    ∃ tid, s' =
      store.map (fun m => if m.id = tid then { m with isRevoked := true } else m) := by
  cases t with
  | empty => exact absurd h (by simp [revokeTokenService, parseUnverified])
  | signed alg c s1 c1 =>
    refine ⟨c.jti, ?_⟩
    simp only [revokeTokenService, parseUnverified, revokeTokenStore] at h
    by_cases hc : store.any (fun m => m.id = c.jti) = true
    · rw [if_pos hc] at h
      exact (Except.ok.inj h).symm
    · rw [if_neg hc] at h
      exact Except.noConfusion h

/-- Reflexive case of the record-derivation relation. -/
theorem derivedFrom_refl (op : TokenOp) (m : TokenMetadata) : derivedFrom op m m := by
  simp [derivedFrom]

/-- A last-used update derives a record under any validation operation. -/
theorem derivedFrom_updateLastUsed (op : TokenOp) (hop : op.isValidation = true)
    (tid : String) (now : Nat) (m : TokenMetadata) :
    derivedFrom op m
      ((if m.id = tid then { m with lastUsedAt := now } else m) : TokenMetadata) := by
  by_cases h : m.id = tid
  · simp [derivedFrom, h, hop]
  · simp [derivedFrom, h]

/-- Conditionally setting the revocation flag derives a record under any
revocation operation. -/
theorem derivedFrom_setRevoked (op : TokenOp) (hop : op.isRevocation = true)
    (p : Prop) [Decidable p] (m : TokenMetadata) :
    derivedFrom op m
      ((if p then { m with isRevoked := true } else m) : TokenMetadata) := by
  by_cases h : p
  · rcases Bool.eq_false_or_eq_true m.isRevoked with hm | hm <;>
      simp [derivedFrom, h, hop, hm]
  · rw [if_neg h]
    exact derivedFrom_refl op m

/-- Pointwise record updates yield stores whose members are all derived,
and in which every old member has a derivative. -/
theorem map_clauses (op : TokenOp) (store : Store)
    (f : TokenMetadata → TokenMetadata) (hd : ∀ m, derivedFrom op m (f m)) :
    (∀ m' ∈ store.map f, ∃ m ∈ store, derivedFrom op m m') ∧
    (∀ m ∈ store, ∃ m' ∈ store.map f, derivedFrom op m m') := by
  constructor
  · intro m' hm'
    obtain ⟨m, hm, rfl⟩ := List.mem_map.mp hm'
    exact ⟨m, hm, hd m⟩
  · intro m hm
    exact ⟨f m, List.mem_map_of_mem f hm, hd m⟩

/-- Specialization of `map_clauses` to the last-used update. -/
theorem updateLastUsed_clauses (op : TokenOp) (hop : op.isValidation = true)
    (store : Store) (tid : String) (now : Nat) :
    (∀ m' ∈ updateLastUsed store tid now, ∃ m ∈ store, derivedFrom op m m') ∧
    (∀ m ∈ store, ∃ m' ∈ updateLastUsed store tid now, derivedFrom op m m') := by
  unfold updateLastUsed
  exact map_clauses op store _ (fun m => derivedFrom_updateLastUsed op hop tid now m)

/-- The last-used update preserves record ids. -/
theorem updateLastUsed_fun_id (tid : String) (now : Nat) (x : TokenMetadata) :
    ((if x.id = tid then { x with lastUsedAt := now } else x) : TokenMetadata).id
      = x.id := by
  by_cases hx : x.id = tid <;> simp [hx]

/-- C9: invariant preserved by every token-service operation on the
metadata store. Every record present after an operation either derives
from an old record of the same id — with identity and immutable fields
preserved, the revocation flag monotone (false at creation, never reset),
flag changes possible only under the revocation operations and only from
false to true, and the last-used timestamp touched only by validation —
or is a freshly created unrevoked record of an issuance operation under a
previously unused id; and every old record survives (as such a
derivative) under every operation except the cleanup sweep. -/
theorem C9_metadata_lifecycle (op : TokenOp) (store : Store) :
    (∀ m' ∈ applyOp store op,
      (∃ m ∈ store, derivedFrom op m m') ∨
      (m'.isRevoked = false ∧ (∀ m ∈ store, m.id ≠ m'.id) ∧ op.isIssuance = true)) ∧
    (∀ m ∈ store,
      (∃ m' ∈ applyOp store op, derivedFrom op m m') ∨ op.isCleanup = true) := by
  cases op with
  | generate cfg u aID rID now f1 f2 =>
    cases hs1 : saveTokenMetadata store (accessMetadataFor cfg u aID now) f1 with
    | error e =>
      have happ : applyOp store (.generate cfg u aID rID now f1 f2) = store := by
        simp [applyOp, generateTokens, hs1]
      rw [happ]
      exact ⟨fun m' hm' => Or.inl ⟨m', hm', derivedFrom_refl _ m'⟩,
        fun m hm => Or.inl ⟨m, hm, derivedFrom_refl _ m⟩⟩
    | ok store1 =>
      obtain ⟨rfl, hany1⟩ := saveTokenMetadata_ok hs1
      cases hs2 : saveTokenMetadata (store ++ [accessMetadataFor cfg u aID now])
          (refreshMetadataFor cfg u rID now) f2 with
      | error e =>
        have happ : applyOp store (.generate cfg u aID rID now f1 f2) =
            store ++ [accessMetadataFor cfg u aID now] := by
          simp [applyOp, generateTokens, hs1, hs2]
        rw [happ]
        constructor
        · intro m' hm'
          rcases List.mem_append.mp hm' with h | h
          · exact Or.inl ⟨m', h, derivedFrom_refl _ m'⟩
          · obtain rfl := List.mem_singleton.mp h
            exact Or.inr ⟨rfl, not_mem_id_of_any_false hany1, rfl⟩
        · intro m hm
          exact Or.inl ⟨m, List.mem_append_left _ hm, derivedFrom_refl _ m⟩
      | ok store2 =>
        obtain ⟨rfl, hany2⟩ := saveTokenMetadata_ok hs2
        have happ : applyOp store (.generate cfg u aID rID now f1 f2) =
            store ++ [accessMetadataFor cfg u aID now] ++
              [refreshMetadataFor cfg u rID now] := by
          simp [applyOp, generateTokens, hs1, hs2]
        rw [happ]
        have hany2s : store.any
            (fun m => m.id = (refreshMetadataFor cfg u rID now).id) = false := by
          rw [List.any_append] at hany2
          exact (Bool.or_eq_false_iff.mp hany2).1
        constructor
        · intro m' hm'
          rcases List.mem_append.mp hm' with h | h
          · rcases List.mem_append.mp h with h2 | h2
            · exact Or.inl ⟨m', h2, derivedFrom_refl _ m'⟩
            · obtain rfl := List.mem_singleton.mp h2
              exact Or.inr ⟨rfl, not_mem_id_of_any_false hany1, rfl⟩
          · obtain rfl := List.mem_singleton.mp h
            exact Or.inr ⟨rfl, not_mem_id_of_any_false hany2s, rfl⟩
        · intro m hm
          exact Or.inl ⟨m, List.mem_append_left _ (List.mem_append_left _ hm),
            derivedFrom_refl _ m⟩
  | validate cfg now t =>
    cases hv : validateToken cfg now store t with
    | error e =>
      have happ : applyOp store (.validate cfg now t) = store := by
        simp [applyOp, hv]
      rw [happ]
      exact ⟨fun m' hm' => Or.inl ⟨m', hm', derivedFrom_refl _ m'⟩,
        fun m hm => Or.inl ⟨m, hm, derivedFrom_refl _ m⟩⟩
    | ok p =>
      obtain ⟨c, s1⟩ := p
      obtain rfl := validateToken_ok_store hv
      have happ : applyOp store (.validate cfg now t) =
          updateLastUsed store c.jti now := by
        simp [applyOp, hv]
      rw [happ]
      have hcl := updateLastUsed_clauses (.validate cfg now t) rfl store c.jti now
      exact ⟨fun m' hm' => Or.inl (hcl.1 m' hm'),
        fun m hm => Or.inl (hcl.2 m hm)⟩
  | refresh cfg now users t newID f =>
    cases hv : validateToken cfg now store t with
    | error e =>
      have happ : applyOp store (.refresh cfg now users t newID f) = store := by
        simp [applyOp, refreshAccessToken, hv]
      rw [happ]
      exact ⟨fun m' hm' => Or.inl ⟨m', hm', derivedFrom_refl _ m'⟩,
        fun m hm => Or.inl ⟨m, hm, derivedFrom_refl _ m⟩⟩
    | ok p =>
      obtain ⟨c, s1⟩ := p
      obtain rfl := validateToken_ok_store hv
      have hcl := updateLastUsed_clauses (.refresh cfg now users t newID f) rfl
        store c.jti now
      by_cases hk : c.tokenType = "refresh"
      · cases hu : users.find? (fun x => x.id = c.userID) with
        | none =>
          have happ : applyOp store (.refresh cfg now users t newID f) =
              updateLastUsed store c.jti now := by
            simp [applyOp, refreshAccessToken, hv, hk, hu]
          rw [happ]
          exact ⟨fun m' hm' => Or.inl (hcl.1 m' hm'),
            fun m hm => Or.inl (hcl.2 m hm)⟩
        | some user =>
          cases hs : saveTokenMetadata (updateLastUsed store c.jti now)
              (accessMetadataFor cfg user newID now) f with
          | error e2 =>
            have happ : applyOp store (.refresh cfg now users t newID f) =
                updateLastUsed store c.jti now := by
              simp [applyOp, refreshAccessToken, hv, hk, hu, hs]
            rw [happ]
            exact ⟨fun m' hm' => Or.inl (hcl.1 m' hm'),
              fun m hm => Or.inl (hcl.2 m hm)⟩
          | ok store2 =>
            obtain ⟨rfl, hany⟩ := saveTokenMetadata_ok hs
            have happ : applyOp store (.refresh cfg now users t newID f) =
                updateLastUsed store c.jti now ++
                  [accessMetadataFor cfg user newID now] := by
              simp [applyOp, refreshAccessToken, hv, hk, hu, hs]
            rw [happ]
            have hany' : store.any
                (fun m => m.id = (accessMetadataFor cfg user newID now).id) = false := by
              simp only [updateLastUsed] at hany
              rw [any_map_of_id _ (updateLastUsed_fun_id c.jti now)] at hany
              exact hany
            constructor
            · intro m' hm'
              rcases List.mem_append.mp hm' with h | h
              · exact Or.inl (hcl.1 m' h)
              · obtain rfl := List.mem_singleton.mp h
                exact Or.inr ⟨rfl, not_mem_id_of_any_false hany', rfl⟩
            · intro m hm
              obtain ⟨m', hm', hd⟩ := hcl.2 m hm
              exact Or.inl ⟨m', List.mem_append_left _ hm', hd⟩
      · have happ : applyOp store (.refresh cfg now users t newID f) =
            updateLastUsed store c.jti now := by
          simp [applyOp, refreshAccessToken, hv, hk]
        rw [happ]
        exact ⟨fun m' hm' => Or.inl (hcl.1 m' hm'),
          fun m hm => Or.inl (hcl.2 m hm)⟩
  | revokeOne cfg t =>
    cases hv : revokeTokenService cfg store t with
    | error e =>
      have happ : applyOp store (.revokeOne cfg t) = store := by
        simp [applyOp, hv]
      rw [happ]
      exact ⟨fun m' hm' => Or.inl ⟨m', hm', derivedFrom_refl _ m'⟩,
        fun m hm => Or.inl ⟨m, hm, derivedFrom_refl _ m⟩⟩
    | ok s' =>
      obtain ⟨tid, rfl⟩ := revokeTokenService_ok hv
      have happ : applyOp store (.revokeOne cfg t) =
          store.map (fun m => if m.id = tid then { m with isRevoked := true } else m) := by
        simp [applyOp, hv]
      rw [happ]
      have hcl := map_clauses (.revokeOne cfg t) store _
        (fun m => derivedFrom_setRevoked (.revokeOne cfg t) rfl (m.id = tid) m)
      exact ⟨fun m' hm' => Or.inl (hcl.1 m' hm'),
        fun m hm => Or.inl (hcl.2 m hm)⟩
  | revokeAllForUser uid =>
    have hcl := map_clauses (.revokeAllForUser uid) store _
      (fun m => derivedFrom_setRevoked (.revokeAllForUser uid) rfl
        (m.userID = uid ∧ m.isRevoked = false) m)
    exact ⟨fun m' hm' => Or.inl (hcl.1 m' hm'),
      fun m hm => Or.inl (hcl.2 m hm)⟩
  | cleanup now =>
    constructor
    · intro m' hm'
      exact Or.inl ⟨m', (List.mem_filter.mp hm').1, derivedFrom_refl _ m'⟩
    · intro m hm
      exact Or.inr rfl

/-- Concrete instance of C9: under a bulk revocation, the sample record
survives as a derivative. -/
theorem C9_metadata_lifecycle_witness :
    ∃ m' ∈ applyOp [sampleMetadata] (.revokeAllForUser 42),
      derivedFrom (.revokeAllForUser 42) sampleMetadata m' :=
  ((C9_metadata_lifecycle (.revokeAllForUser 42) [sampleMetadata]).2 sampleMetadata
    (List.mem_singleton_self _)).resolve_right (by simp [TokenOp.isCleanup])

end AuthService
